import Mathlib

/-!
Verification development for the chartjs-plugin-area repository.

The authoritative implementation is `src/index.ts`: the class `ColorUtils`
(color parsing, value-to-color resolution and gradient construction) and the
`AreaController` glue around it.  This file gives a shallow embedding of that
code and proves properties of it.

Modelling conventions:
 - JavaScript numbers that the code compares and maps through scales are
   modelled as extended rationals (`ENum`): a rational, `+Infinity` or
   `-Infinity`.  The code only ever uses the infinities in threshold zones.
 - Chart.js `Color` values are either strings or opaque non-string objects
   whose only observable use is their default string conversion.
 - The color regular expressions of `ColorUtils` are embedded as executable
   character-level matchers, one per regex; each piece of the matcher mirrors
   one fragment of the regex and is annotated with that fragment.
 - A `CanvasGradient` is observable only through the ordered list of
   `addColorStop(position, color)` calls made on it, so gradients are
   modelled as `List (ℚ × String)`.
-/

attribute [local semireducible] Rat.add Rat.sub Rat.mul Rat.inv Rat.ofScientific

/--
Extended numeric value: a JavaScript number that is either finite (modelled
as a rational) or one of the two infinities.  The infinities occur in the
desugared threshold zones `{from:+Infinity, to:threshold}` and
`{from:threshold, to:-Infinity}` of `createThresholdGradient`.
-/
inductive ENum where
  | negInf : ENum
  | fin (q : ℚ) : ENum
  | posInf : ENum
deriving DecidableEq

namespace ENum

/-- JavaScript comparison `a <= b` on extended numbers
(`-Infinity <= x`, `x <= +Infinity`, finite values compare as rationals). -/
def ble : ENum → ENum → Bool
  | negInf, _ => true
  | _, posInf => true
  | posInf, _ => false
  | fin _, negInf => false
  | fin p, fin q => p ≤ q

/-- JavaScript comparison `a < b` on extended numbers. -/
def blt : ENum → ENum → Bool
  | _, negInf => false
  | negInf, _ => true
  | posInf, _ => false
  | fin _, posInf => true
  | fin p, fin q => p < q

/-- Subtraction of a finite number from an extended number, as used by
`scale.getPixelForValue( y ) - chartArea.top` where the chart area edge is a
finite pixel coordinate. -/
def subFin : ENum → ℚ → ENum
  | negInf, _ => negInf
  | posInf, _ => posInf
  | fin p, q => fin (p - q)

/-- Division of an extended number by a finite nonzero number; the sign of
the divisor decides which infinity an infinite numerator maps to.  The code
only divides by a strictly positive chart-area height. -/
def divFin : ENum → ℚ → ENum
  | negInf, r => if 0 < r then negInf else posInf
  | posInf, r => if 0 < r then posInf else negInf
  | fin p, r => fin (p / r)

end ENum

/--
A Chart.js `Color` as seen by the plugin: either a JavaScript string, or a
non-string value whose only observable use in this code is its default
string conversion `String(color)` (stored here as `conv`).
-/
inductive JSColor where
  | str (s : String) : JSColor
  | obj (conv : String) : JSColor
deriving DecidableEq

/-- JavaScript truthiness of an optional color value: `undefined` and the
empty string are falsy, any other string and any object is truthy.  Used by
`value < threshold && negativeColor ? negativeColor : color`. -/
def JSColor.truthyOpt : Option JSColor → Bool
  | none => false
  | some (.str s) => s != ""
  | some (.obj _) => true

/-- `AreaChartColorZone` from `src/index.ts`: a value band with a color and
an optional per-zone opacity. -/
structure AreaChartColorZone where
  «from» : ENum
  «to» : ENum
  color : JSColor
  opacity : Option ℚ := none
deriving DecidableEq

namespace ColorUtils

/-- The zone scan loop of `ColorUtils.getColorForValue`:
`for ( const z of zones ?? [] ) if ( value >= z.from && value <= z.to ) return z.color;` -/
def zoneScan (value : ENum) : List AreaChartColorZone → Option JSColor
  | [] => none
  | z :: zs =>
      if ENum.ble z.«from» value && ENum.ble value z.«to» then some z.color
      else zoneScan value zs

/-- `ColorUtils.getColorForValue` (src/index.ts, lines 192-201).  After the
zone scan it falls back to
`value < threshold && negativeColor ? negativeColor : color`. -/
def getColorForValue (value : ENum) (zones : Option (List AreaChartColorZone))
    (color negativeColor : Option JSColor) (threshold : ENum) : Option JSColor :=
  match zoneScan value (zones.getD []) with
  | some c => some c
  | none =>
      if ENum.blt value threshold && JSColor.truthyOpt negativeColor then negativeColor
      else color

/-- The JavaScript whitespace class `\s`, restricted to the ASCII
whitespace characters (space, tab, line feed, vertical tab, form feed,
carriage return); the Unicode spaces also matched by `\s` play no role in
color strings. -/
def jsWs (c : Char) : Bool :=
  c = ' ' || c = '\t' || c = '\n' || c = '\x0b' || c = '\x0c' || c = '\r'

/-- Drop a leading `\s*`. -/
def skipWs (cs : List Char) : List Char := cs.dropWhile jsWs

/-- JavaScript `String.prototype.trim()` on the character list. -/
def jsTrim (cs : List Char) : List Char :=
  ((cs.dropWhile jsWs).reverse.dropWhile jsWs).reverse

/-- Case-insensitive literal match (all four regexes carry the `i` flag):
consume the lowercase literal `lit` from the front of `cs`, comparing
lowercased characters, and return the rest on success. -/
def expectCI : List Char → List Char → Option (List Char)
  | [], cs => some cs
  | _ :: _, [] => none
  | l :: ls, c :: cs => if c.toLower = l then expectCI ls cs else none

/-- Greedy `\d{0,n}`: take at most `n` leading digits. -/
def takeDigitsUpTo : Nat → List Char → List Char × List Char
  | 0, cs => ([], cs)
  | _ + 1, [] => ([], [])
  | n + 1, c :: cs =>
      if c.isDigit then
        let (ds, r) := takeDigitsUpTo n cs
        (c :: ds, r)
      else ([], c :: cs)

/-- A numeric component `\d{1,3}(?:\.\d+)?`: one to three digits taken
greedily, then an optional fraction, taken only when the dot is followed
by at least one digit (when it is not, the regex drops the optional
group, leaving the dot unconsumed).  Returns the captured characters and
the rest. -/
def parseNum3 (cs : List Char) : Option (List Char × List Char) :=
  match takeDigitsUpTo 3 cs with
  | ([], _) => none
  | (ds, r) =>
      match r with
      | '.' :: r2 =>
          let frac := r2.takeWhile Char.isDigit
          if frac.isEmpty then some (ds, r)
          else some (ds ++ '.' :: frac, r2.dropWhile Char.isDigit)
      | _ => some (ds, r)

/-- A signed component `[-+]?\d{1,3}(?:\.\d+)?` of the hsl regex; the sign
is part of the capture. -/
def parseSignedNum3 (cs : List Char) : Option (List Char × List Char) :=
  match cs with
  | [] => none
  | c :: r =>
      if c = '-' || c = '+' then (parseNum3 r).map (fun p => (c :: p.1, p.2))
      else parseNum3 (c :: r)

/-- The mandatory separator `\s*(?:,\s*|\s+)\s*` between components: after
the leading whitespace either a comma (followed by more whitespace) or at
least one whitespace character must have been consumed. -/
def parseSep (cs : List Char) : Option (List Char) :=
  let ws := cs.takeWhile jsWs
  let r := cs.dropWhile jsWs
  match r with
  | ',' :: r2 => some (skipWs r2)
  | _ => if ws.isEmpty then none else some r

/-- The alpha token `[\d.]+%?`: one or more digits or dots taken greedily,
then an optional percent sign; the whole token, percent included, is the
capture. -/
def takeAlphaTok (cs : List Char) : Option (List Char × List Char) :=
  let tok := cs.takeWhile (fun c => c.isDigit || c = '.')
  let r := cs.dropWhile (fun c => c.isDigit || c = '.')
  if tok.isEmpty then none
  else
    match r with
    | '%' :: r2 => some (tok ++ ['%'], r2)
    | _ => some (tok, r)

/-- The common tail `\s*(?:,\s*|\s+)?(?:\s*\/?\s*([\d.]+%?)\s*)?\)$` of the
rgb and hsl regexes: an optional separator, an optional alpha group whose
slash is itself optional, then the closing parenthesis at the very end.
Returns the alpha capture, `none` when the group is absent.  When a slash
was consumed the alpha token is mandatory (it sits inside the same
optional group), and when the token is present but the close fails no
other reading can succeed, because the position then holds a digit or a
dot, never the required parenthesis. -/
def parseTail (cs : List Char) : Option (Option (List Char)) :=
  let r := skipWs cs
  let r := match r with
    | ',' :: r2 => skipWs r2
    | _ => r
  match r with
  | '/' :: r2 =>
      match takeAlphaTok (skipWs r2) with
      | some (tok, r3) => if skipWs r3 = [')'] then some (some tok) else none
      | none => none
  | _ =>
      match takeAlphaTok r with
      | some (tok, r3) => if skipWs r3 = [')'] then some (some tok) else none
      | none => if r = [')'] then some none else none

/-- Matcher for the `ColorUtils.RGB` regex
`^rgba?\(\s*(\d{1,3}(?:\.\d+)?)\s*(?:,\s*|\s+)\s*(\d{1,3}(?:\.\d+)?)\s*(?:,\s*|\s+)\s*(\d{1,3}(?:\.\d+)?)\s*(?:,\s*|\s+)?(?:\s*\/?\s*([\d.]+%?)\s*)?\)$`
with the `i` flag.  Returns the four capture groups. -/
def matchRGB (cs : List Char) : Option (List (Option (List Char))) := do
  let r ← expectCI ['r', 'g', 'b'] cs
  let r := match r with
    | c :: r2 => if c.toLower = 'a' then r2 else c :: r2
    | [] => []
  let r ← match r with
    | '(' :: r2 => some r2
    | _ => none
  let (c1, r) ← parseNum3 (skipWs r)
  let r ← parseSep r
  let (c2, r) ← parseNum3 r
  let r ← parseSep r
  let (c3, r) ← parseNum3 r
  let alpha ← parseTail r
  return [some c1, some c2, some c3, alpha]

/-- The hue unit `(deg|grad|rad)?` of the hsl regex (capture group 2),
alternatives tried in the order written; the capture preserves the
original characters. -/
def parseHueUnit (cs : List Char) : Option (List Char) × List Char :=
  match expectCI ['d', 'e', 'g'] cs with
  | some r => (some (cs.take 3), r)
  | none =>
      match expectCI ['g', 'r', 'a', 'd'] cs with
      | some r => (some (cs.take 4), r)
      | none =>
          match expectCI ['r', 'a', 'd'] cs with
          | some r => (some (cs.take 3), r)
          | none => (none, cs)

/-- Matcher for the `ColorUtils.HSL` regex
`^hsla?\(\s*([-+]?\d{1,3}(?:\.\d+)?)(deg|grad|rad)?\s*(?:,\s*|\s+)\s*([-+]?\d{1,3}(?:\.\d+)?)%\s*(?:,\s*|\s+)\s*([-+]?\d{1,3}(?:\.\d+)?)%\s*(?:,\s*|\s+)?(?:\s*\/?\s*([\d.]+%?)\s*)?\)$`
with the `i` flag.  Returns the five capture groups: hue, unit,
saturation, lightness, alpha.  The percent signs of saturation and
lightness sit outside their capture groups. -/
def matchHSL (cs : List Char) : Option (List (Option (List Char))) := do
  let r ← expectCI ['h', 's', 'l'] cs
  let r := match r with
    | c :: r2 => if c.toLower = 'a' then r2 else c :: r2
    | [] => []
  let r ← match r with
    | '(' :: r2 => some r2
    | _ => none
  let (hue, r) ← parseSignedNum3 (skipWs r)
  let (unit, r) := parseHueUnit r
  let r ← parseSep r
  let (sat, r) ← parseSignedNum3 r
  let r ← match r with
    | '%' :: r2 => some r2
    | _ => none
  let r ← parseSep r
  let (light, r) ← parseSignedNum3 r
  let r ← match r with
    | '%' :: r2 => some r2
    | _ => none
  let alpha ← parseTail r
  return [some hue, unit, some sat, some light, alpha]

/-- The character class `[a-f\d]` under the `i` flag. -/
def isHexDigit (c : Char) : Bool :=
  c.isDigit || ('a' ≤ c.toLower && c.toLower ≤ 'f')

/-- Matcher for the `ColorUtils.HEX34` regex
`^#([a-f\d])([a-f\d])([a-f\d])([a-f\d])?$` with the `i` flag. -/
def matchHEX34 (cs : List Char) : Option (List (Option (List Char))) :=
  match cs with
  | '#' :: c1 :: c2 :: c3 :: rest =>
      if isHexDigit c1 && isHexDigit c2 && isHexDigit c3 then
        match rest with
        | [] => some [some [c1], some [c2], some [c3], none]
        | [c4] =>
            if isHexDigit c4 then some [some [c1], some [c2], some [c3], some [c4]]
            else none
        | _ => none
      else none
  | _ => none

/-- Matcher for the `ColorUtils.HEX68` regex
`^#([a-f\d]{2})([a-f\d]{2})([a-f\d]{2})([a-f\d]{2})?$` with the `i`
flag. -/
def matchHEX68 (cs : List Char) : Option (List (Option (List Char))) :=
  match cs with
  | '#' :: a1 :: a2 :: b1 :: b2 :: c1 :: c2 :: rest =>
      if isHexDigit a1 && isHexDigit a2 && isHexDigit b1 && isHexDigit b2 &&
          isHexDigit c1 && isHexDigit c2 then
        match rest with
        | [] => some [some [a1, a2], some [b1, b2], some [c1, c2], none]
        | [d1, d2] =>
            if isHexDigit d1 && isHexDigit d2 then
              some [some [a1, a2], some [b1, b2], some [c1, c2], some [d1, d2]]
            else none
        | _ => none
      else none
  | _ => none

/-- Value of a hexadecimal digit; the matchers only feed it hex digits. -/
def hexDigitVal (c : Char) : Nat :=
  if c.isDigit then c.toNat - Char.toNat '0'
  else c.toLower.toNat - Char.toNat 'a' + 10

/-- `parseInt( v, 16 )` on a string of hexadecimal digits. -/
def parseHex (cs : List Char) : Nat :=
  cs.foldl (fun acc c => acc * 16 + hexDigitVal c) 0

/-- Decimal digits of the fractional part of a nonnegative rational below
one, with fuel: exact for rationals with a terminating decimal expansion
of at most twenty digits, which covers every alpha the embedded code
stringifies. -/
def fracDigits : Nat → ℚ → List Char
  | 0, _ => []
  | n + 1, r =>
      if r = 0 then []
      else
        let r10 := r * 10
        let d : Nat := r10.num.toNat / r10.den
        Nat.digitChar d :: fracDigits n (r10 - (d : ℚ))

/-- JavaScript number-to-string conversion for a nonnegative rational. -/
def jsNumReprNN (q : ℚ) : String :=
  let ip : Nat := q.num.toNat / q.den
  let fr := q - (ip : ℚ)
  if fr = 0 then Nat.repr ip
  else Nat.repr ip ++ "." ++ (fracDigits 20 fr).asString

/-- JavaScript number-to-string conversion as used when the template
string of `parseColor` interpolates the numeric `alpha` parameter. -/
def jsNumRepr (q : ℚ) : String :=
  if q < 0 then "-" ++ jsNumReprNN (-q) else jsNumReprNN q

/-- `ColorUtils.parseColor` (src/index.ts lines 75-86): trim the input,
match it against the regex, and on success rebuild
`as(c1,c2,c3,a)` where the components are `match.slice( 1, 4 )` (hex
digits doubled when single, then parsed base 16; an absent capture joins
as the empty string exactly as `undefined` does in
`Array.prototype.join`) and the alpha is `match.slice( 4, 5 )[ 0 ] ?? alpha`,
i.e. the fourth capture group when present in the source string, the
caller-supplied alpha otherwise. -/
def parseColor (color : String) (fam : String)
    (matcher : List Char → Option (List (Option (List Char))))
    (alpha : ℚ) (isHex : Bool) : Option String :=
  match matcher (jsTrim color.data) with
  | none => none
  | some groups =>
      let comp : Option (List Char) → String := fun g =>
        match g with
        | none => ""
        | some v =>
            if isHex then Nat.repr (parseHex (if v.length = 1 then v ++ v else v))
            else v.asString
      let comps := (groups.take 3).map comp
      let a := match groups.get? 3 with
        | some (some v) => v.asString
        | _ => jsNumRepr alpha
      some (fam ++ "(" ++ String.intercalate "," comps ++ "," ++ a ++ ")")

/-- `ColorUtils.color` (src/index.ts lines 112-123): a non-string is
returned through its default string conversion; a string is tried against
the four regexes in order (rgb, hsl, hex 3/4, hex 6/8) and falls through
unchanged when none matches.  The code chains `if ( res = parseColor( ... ) )`,
which tests the truthiness of the assigned string; `parseColor` never
returns the empty string (its output always starts with the family name),
so the test is exactly the `some`/`none` distinction. -/
def color : JSColor → ℚ → String
  | .obj conv, _ => conv
  | .str s, alpha =>
      match parseColor s "rgba" matchRGB alpha false with
      | some res => res
      | none =>
          match parseColor s "hsla" matchHSL alpha false with
          | some res => res
          | none =>
              match parseColor s "rgba" matchHEX34 alpha true with
              | some res => res
              | none =>
                  match parseColor s "rgba" matchHEX68 alpha true with
                  | some res => res
                  | none => s

/-- A string is recognized when at least one of the four regexes matches
its trimmed form. -/
def recognized (s : String) : Bool :=
  (matchRGB (jsTrim s.data)).isSome || (matchHSL (jsTrim s.data)).isSome ||
    (matchHEX34 (jsTrim s.data)).isSome || (matchHEX68 (jsTrim s.data)).isSome

end ColorUtils

/-- The Chart.js chart area rectangle; the gradient code reads only its
vertical extent. -/
structure ChartArea where
  top : ℚ
  bottom : ℚ
deriving DecidableEq

/-- A Chart.js scale, reduced to the single method the embedded code
calls: `getPixelForValue`. -/
abbrev Scale := ENum → ENum

namespace ColorUtils

/-- `Math.max( 0, Math.min( 1, x ) )` on an extended number: the
JavaScript min and max propagate the infinities, so the clamp always
lands in `[0,1]`. -/
def clamp01 : ENum → ℚ
  | ENum.negInf => 0
  | ENum.posInf => 1
  | ENum.fin q => max 0 (min 1 q)

/-- `ColorUtils.normalizePosition` (src/index.ts lines 95-104): a
non-positive chart-area height short-circuits to `0`; otherwise the pixel
for the value is shifted by the top edge, divided by the height and
clamped into `[0,1]`. -/
def normalizePosition (y : ENum) (scale : Scale) (chartArea : ChartArea) : ℚ :=
  let range := chartArea.bottom - chartArea.top
  if range ≤ 0 then 0
  else clamp01 (ENum.divFin (ENum.subFin (scale y) chartArea.top) range)

/-- Insertion step of the stable sort: `z` is placed before the first
element whose `from` it reaches or exceeds, so that ties keep the earlier
element of the original list first. -/
def insertZoneDesc (z : AreaChartColorZone) :
    List AreaChartColorZone → List AreaChartColorZone
  | [] => [z]
  | y :: ys =>
      if ENum.ble y.«from» z.«from» then z :: y :: ys
      else y :: insertZoneDesc z ys

/-- The sort `[...zones].sort( ( a, b ) => b.from - a.from )`: the
ECMAScript sort is required to be stable, and the numeric comparator
orders by descending `from` (a comparator value of `NaN`, which arises
only when both `from` fields are the same infinity, is treated as `0`,
i.e. as a tie, by the ECMAScript SortCompare operation).  A stable sort
for a consistent comparator has a unique result, here computed by a
stable insertion sort. -/
def sortZones : List AreaChartColorZone → List AreaChartColorZone
  | [] => []
  | z :: zs => insertZoneDesc z (sortZones zs)

/-- `ColorUtils.createMultiBandGradient` (src/index.ts lines 134-155),
observed as the ordered list of `addColorStop( position, color )` calls
issued on the canvas gradient: the `forEach` body skips a zone whose two
normalized positions are strictly equal and otherwise appends two stops
carrying the same color. -/
def createMultiBandGradient (chartArea : ChartArea) (scale : Scale)
    (zones : List AreaChartColorZone) (fillOpacity : ℚ) : List (ℚ × String) :=
  (sortZones zones).foldl
    (fun gradient zone =>
      let start := normalizePosition zone.«from» scale chartArea
      let stop := normalizePosition zone.«to» scale chartArea
      if start = stop then gradient
      else
        let c := color zone.color (zone.opacity.getD fillOpacity)
        gradient ++ [(start, c), (stop, c)])
    []

/-- The contribution of a single zone to the gradient, i.e. the body of
the `forEach` in `createMultiBandGradient`: nothing when the two
normalized positions coincide, otherwise two stops at the start and end
positions carrying the same color
`ColorUtils.color( zone.color, zone.opacity ?? fillOpacity )`. -/
def zoneStops (chartArea : ChartArea) (scale : Scale) (fillOpacity : ℚ)
    (zone : AreaChartColorZone) : List (ℚ × String) :=
  if ColorUtils.normalizePosition zone.«from» scale chartArea =
      ColorUtils.normalizePosition zone.«to» scale chartArea then []
  else
    [(ColorUtils.normalizePosition zone.«from» scale chartArea,
      ColorUtils.color zone.color (zone.opacity.getD fillOpacity)),
     (ColorUtils.normalizePosition zone.«to» scale chartArea,
      ColorUtils.color zone.color (zone.opacity.getD fillOpacity))]

/-- `ColorUtils.createThresholdGradient` (src/index.ts lines 168-181):
desugars the threshold rule into the two-zone list and delegates. -/
def createThresholdGradient (chartArea : ChartArea) (scale : Scale)
    (c nc : JSColor) (threshold : ENum) (fillOpacity : ℚ) : List (ℚ × String) :=
  createMultiBandGradient chartArea scale
    [{ «from» := ENum.posInf, «to» := threshold, color := c, opacity := none },
     { «from» := threshold, «to» := ENum.negInf, color := nc, opacity := none }]
    fillOpacity

/-- `createMultiBandGradient` with the JavaScript array store made
explicit, to express what the spread-then-sort does to the caller's
array.  Arrays live in a store indexed by references; the caller's zone
list is the array at `zonesRef`.  The spread `[...zones]` allocates a
fresh array with the same elements at the next free reference, and
`.sort()` mutates that fresh array in place; no other array of the store
is written.  Returns the emitted gradient stops together with the final
store. -/
def createMultiBandGradientStore (store : List (List AreaChartColorZone))
    (zonesRef : Nat) (chartArea : ChartArea) (scale : Scale)
    (fillOpacity : ℚ) : List (ℚ × String) × List (List AreaChartColorZone) :=
  let zones := store.getD zonesRef []
  let copyRef := store.length
  let store1 := store ++ [zones]
  let sorted := sortZones zones
  let store2 := store1.set copyRef sorted
  (sorted.foldl
    (fun gradient zone =>
      let start := normalizePosition zone.«from» scale chartArea
      let stop := normalizePosition zone.«to» scale chartArea
      if start = stop then gradient
      else
        let c := color zone.color (zone.opacity.getD fillOpacity)
        gradient ++ [(start, c), (stop, c)])
    [], store2)

end ColorUtils

/-- The linear scale of the end-to-end scenario of claim C3:
`valueToPixel( v ) = 100 - v`, extended to the infinities as JavaScript
arithmetic does (`100 - +Infinity = -Infinity` and
`100 - -Infinity = +Infinity`). -/
def scaleLin : Scale := fun v =>
  match v with
  | ENum.fin q => ENum.fin (100 - q)
  | ENum.posInf => ENum.negInf
  | ENum.negInf => ENum.posInf

/-- A well-formed rgb component in the sense of the `ColorUtils.RGB`
regex, restricted to the pure digit case: one to three digit
characters. -/
def rgbDigits (cs : List Char) : Prop :=
  cs ≠ [] ∧ cs.length ≤ 3 ∧ ∀ c ∈ cs, c.isDigit = true

/-! ## Theorems -/

theorem zoneScan_eq_find (v : ENum) (zs : List AreaChartColorZone) :
    ColorUtils.zoneScan v zs =
      (zs.find? (fun z => ENum.ble z.«from» v && ENum.ble v z.«to»)).map
        (fun z => z.color) := by
  induction zs with
  | nil => rfl
  | cons z zs ih =>
      by_cases h : (ENum.ble z.«from» v && ENum.ble v z.«to») = true
      · simp [ColorUtils.zoneScan, List.find?, h]
      · simp only [Bool.not_eq_true] at h
        simp [ColorUtils.zoneScan, List.find?, h, ih]

/-- Claim C1 counterexample: for the descending single zone
`{from: 1, to: 0}` and the value `1/2`, which lies in the closed interval
`[min(from,to), max(from,to)] = [0, 1]`, `getColorForValue` does not return
the zone color: the test `value >= z.from && value <= z.to` fails for a
descending zone, and the call falls through to the (empty) threshold
fallback, returning `undefined`. -/
theorem getColorForValue_minmax_counterexample :
    ENum.ble (ENum.fin 0) (ENum.fin (1/2)) = true ∧
    ENum.ble (ENum.fin (1/2)) (ENum.fin 1) = true ∧
    ColorUtils.getColorForValue (ENum.fin (1/2))
      (some [{ «from» := ENum.fin 1, «to» := ENum.fin 0,
               color := JSColor.str "Z", opacity := none }])
      none none (ENum.fin 0) = none := by
  refine ⟨by decide, by decide, by decide⟩

/-- Claim C1 (amended): `getColorForValue` returns the color of the first
zone, in the given list order, whose interval `[from, to]` contains the
value in the sense `z.from <= v && v <= z.to`; a zone with `from > to`
(descending band) therefore never matches.  In particular a single zone
with `z.from <= v <= z.to` resolves to its color. -/
theorem getColorForValue_first_match :
    (∀ (v : ENum) (zones : List AreaChartColorZone) (c nc : Option JSColor)
        (t : ENum) (z : AreaChartColorZone),
        zones.find? (fun z => ENum.ble z.«from» v && ENum.ble v z.«to») = some z →
        ColorUtils.getColorForValue v (some zones) c nc t = some z.color) ∧
    (∀ (v : ENum) (z : AreaChartColorZone) (c nc : Option JSColor) (t : ENum),
        ENum.ble z.«from» v = true → ENum.ble v z.«to» = true →
        ColorUtils.getColorForValue v (some [z]) c nc t = some z.color) := by
  constructor
  · intro v zones c nc t z hfind
    simp [ColorUtils.getColorForValue, zoneScan_eq_find, hfind]
  · intro v z c nc t h1 h2
    simp [ColorUtils.getColorForValue, ColorUtils.zoneScan, h1, h2]

/-- Witness for the amended claim C1 at a concrete input: the ascending zone
`{from: 0, to: 1}` matches the value `1/2` and resolves to its color. -/
theorem getColorForValue_first_match_witness :
    ColorUtils.getColorForValue (ENum.fin (1/2))
      (some [{ «from» := ENum.fin 0, «to» := ENum.fin 1,
               color := JSColor.str "Z", opacity := none }])
      none none (ENum.fin 0) = some (JSColor.str "Z") :=
  getColorForValue_first_match.2 (ENum.fin (1/2))
    { «from» := ENum.fin 0, «to» := ENum.fin 1,
      color := JSColor.str "Z", opacity := none }
    none none (ENum.fin 0) (by decide) (by decide)

/-- Claim C2 counterexample: with value `5`, `color = "C"`,
`negativeColor = "N"` and threshold `0`, the threshold call returns `"C"`
while `getColorForValue` applied to the desugared two-zone list returns
`undefined`: neither desugared zone (both with `from > to`) ever satisfies
`value >= z.from && value <= z.«to»`. -/
theorem threshold_desugar_counterexample :
    ColorUtils.getColorForValue (ENum.fin 5) none
        (some (JSColor.str "C")) (some (JSColor.str "N")) (ENum.fin 0) =
      some (JSColor.str "C") ∧
    ColorUtils.getColorForValue (ENum.fin 5)
        (some [{ «from» := ENum.posInf, «to» := ENum.fin 0,
                 color := JSColor.str "C", opacity := none },
               { «from» := ENum.fin 0, «to» := ENum.negInf,
                 color := JSColor.str "N", opacity := none }])
        none none (ENum.fin 0) = none := by
  refine ⟨by decide, by decide⟩

/-- Claim C2 (amended): the threshold form and the desugared two-zone list
agree only when the threshold arguments are passed alongside the zone list:
for every value, both colors and every threshold, the two desugared zones
never match (each has `from > to`), so the zone call degrades to the same
threshold fallback. -/
theorem threshold_desugar_equiv (v : ENum) (c nc : JSColor) (t : ℚ) :
    ColorUtils.getColorForValue v none (some c) (some nc) (ENum.fin t) =
      ColorUtils.getColorForValue v
        (some [{ «from» := ENum.posInf, «to» := ENum.fin t,
                 color := c, opacity := none },
               { «from» := ENum.fin t, «to» := ENum.negInf,
                 color := nc, opacity := none }])
        (some c) (some nc) (ENum.fin t) := by
  cases v <;>
    simp [ColorUtils.getColorForValue, ColorUtils.zoneScan, ENum.ble]

/-- Claim C3 counterexample: in the end-to-end threshold scenario
(rectangle `{top:0, bottom:100}`, `valueToPixel( v ) = 100 - v`, colors
`"A"`/`"B"`, threshold `0`, fill opacity `1`) the built gradient does not
have 4 stops: the negative zone maps `to:-Infinity` to pixel `+Infinity`,
which clamps to position `1`, equal to its start position, so the zone is
collapsed and only the two stops of the positive zone are emitted. -/
theorem thresholdGradient_scenario_counterexample :
    ¬ (ColorUtils.createThresholdGradient { top := 0, bottom := 100 } scaleLin
        (JSColor.str "A") (JSColor.str "B") (ENum.fin 0) 1).length = 4 := by
  decide

/-- Claim C3 (amended): in the end-to-end threshold scenario the gradient
consists of exactly the two stops `(0,"A"), (1,"A")`: the positive zone
`{from:+Infinity, to:0}` normalizes to positions `{0,1}`, while the
negative zone `{from:0, to:-Infinity}` normalizes to `{1,1}` (the value
`-Infinity` maps to pixel `+Infinity`, clamped to `1`, not `0`) and is
suppressed by the degenerate-zone collapse rule. -/
theorem thresholdGradient_scenario :
    ColorUtils.createThresholdGradient { top := 0, bottom := 100 } scaleLin
        (JSColor.str "A") (JSColor.str "B") (ENum.fin 0) 1 = [(0, "A"), (1, "A")] ∧
    ColorUtils.normalizePosition ENum.posInf scaleLin { top := 0, bottom := 100 } = 0 ∧
    ColorUtils.normalizePosition (ENum.fin 0) scaleLin { top := 0, bottom := 100 } = 1 ∧
    ColorUtils.normalizePosition ENum.negInf scaleLin { top := 0, bottom := 100 } = 1 := by
  refine ⟨by decide, by decide, by decide, by decide⟩

/-- Claim C7: position normalization is a guarded total computation.  The
result always lies in `[0,1]`; a rectangle of non-positive height
short-circuits to `0` without dividing; with positive height the result
is the clamp of `(pixel - top) / (bottom - top)` into `[0,1]`, and a
pixel strictly outside `[top, bottom]` normalizes to `0` (above the top
edge) or `1` (below the bottom edge), never outside. -/
theorem normalizePosition_guarded :
    (∀ (y : ENum) (scale : Scale) (area : ChartArea),
        0 ≤ ColorUtils.normalizePosition y scale area ∧
          ColorUtils.normalizePosition y scale area ≤ 1) ∧
    (∀ (y : ENum) (scale : Scale) (area : ChartArea),
        area.bottom - area.top ≤ 0 → ColorUtils.normalizePosition y scale area = 0) ∧
    (∀ (y : ENum) (scale : Scale) (area : ChartArea),
        0 < area.bottom - area.top →
        ColorUtils.normalizePosition y scale area =
          ColorUtils.clamp01
            (ENum.divFin (ENum.subFin (scale y) area.top) (area.bottom - area.top))) ∧
    (∀ (y : ENum) (scale : Scale) (area : ChartArea) (px : ℚ),
        0 < area.bottom - area.top → scale y = ENum.fin px → px < area.top →
        ColorUtils.normalizePosition y scale area = 0) ∧
    (∀ (y : ENum) (scale : Scale) (area : ChartArea) (px : ℚ),
        0 < area.bottom - area.top → scale y = ENum.fin px → area.bottom < px →
        ColorUtils.normalizePosition y scale area = 1) := by
  have hclamp : ∀ e : ENum, 0 ≤ ColorUtils.clamp01 e ∧ ColorUtils.clamp01 e ≤ 1 := by
    intro e
    cases e with
    | negInf => exact ⟨le_refl 0, by norm_num [ColorUtils.clamp01]⟩
    | posInf => exact ⟨by norm_num [ColorUtils.clamp01], le_refl 1⟩
    | fin q =>
        refine ⟨le_max_left 0 _, ?_⟩
        simp only [ColorUtils.clamp01]
        exact max_le (by norm_num) (min_le_left 1 q)
  refine ⟨?_, ?_, ?_, ?_, ?_⟩
  · intro y scale area
    simp only [ColorUtils.normalizePosition]
    by_cases h : area.bottom - area.top ≤ 0
    · simp [h]
    · simp only [h, if_false]
      exact hclamp _
  · intro y scale area h
    simp [ColorUtils.normalizePosition, h]
  · intro y scale area h
    have h2 : ¬ area.bottom - area.top ≤ 0 := not_le.mpr h
    simp [ColorUtils.normalizePosition, h2]
  · intro y scale area px h hs hpx
    have h2 : ¬ area.bottom - area.top ≤ 0 := not_le.mpr h
    have hneg : (px - area.top) / (area.bottom - area.top) < 0 :=
      div_neg_of_neg_of_pos (by linarith) h
    simp only [ColorUtils.normalizePosition, h2, if_false, hs, ENum.subFin, ENum.divFin,
      ColorUtils.clamp01]
    have hmin : min 1 ((px - area.top) / (area.bottom - area.top)) =
        (px - area.top) / (area.bottom - area.top) :=
      min_eq_right (le_of_lt (lt_trans hneg one_pos))
    rw [hmin]
    exact max_eq_left (le_of_lt hneg)
  · intro y scale area px h hs hpx
    have h2 : ¬ area.bottom - area.top ≤ 0 := not_le.mpr h
    have hgt : 1 < (px - area.top) / (area.bottom - area.top) :=
      (one_lt_div h).mpr (by linarith)
    simp only [ColorUtils.normalizePosition, h2, if_false, hs, ENum.subFin, ENum.divFin,
      ColorUtils.clamp01]
    rw [min_eq_left (le_of_lt hgt)]
    exact max_eq_right (by norm_num)

/-- Witness for claim C7 at concrete inputs: with the rectangle
`{top:0, bottom:100}` a value whose pixel is `150` (below the bottom
edge) normalizes to `1`, and a rectangle of zero height normalizes
everything to `0`. -/
theorem normalizePosition_guarded_witness :
    ColorUtils.normalizePosition (ENum.fin 3) (fun _ => ENum.fin 150)
        { top := 0, bottom := 100 } = 1 ∧
    ColorUtils.normalizePosition (ENum.fin 3) (fun _ => ENum.fin 150)
        { top := 50, bottom := 50 } = 0 :=
  ⟨normalizePosition_guarded.2.2.2.2 (ENum.fin 3) (fun _ => ENum.fin 150)
      { top := 0, bottom := 100 } 150 (by norm_num) rfl (by norm_num),
   normalizePosition_guarded.2.1 (ENum.fin 3) (fun _ => ENum.fin 150)
      { top := 50, bottom := 50 } (by norm_num)⟩

theorem ENum.ble_total (a b : ENum) : ENum.ble a b = true ∨ ENum.ble b a = true := by
  cases a <;> cases b <;> simp [ENum.ble]
  exact le_total _ _

theorem ENum.ble_trans {a b c : ENum} (h1 : ENum.ble a b = true)
    (h2 : ENum.ble b c = true) : ENum.ble a c = true := by
  cases a <;> cases b <;> cases c <;> simp_all [ENum.ble]
  exact le_trans h1 h2

theorem insertZoneDesc_perm (z : AreaChartColorZone) (l : List AreaChartColorZone) :
    List.Perm (ColorUtils.insertZoneDesc z l) (z :: l) := by
  induction l with
  | nil => exact List.Perm.refl _
  | cons y ys ih =>
      simp only [ColorUtils.insertZoneDesc]
      by_cases h : ENum.ble y.«from» z.«from» = true
      · simp [h]
      · simp only [h, if_false, Bool.false_eq_true]
        exact (ih.cons y).trans (List.Perm.swap z y ys)

theorem sortZones_perm (l : List AreaChartColorZone) :
    List.Perm (ColorUtils.sortZones l) l := by
  induction l with
  | nil => exact List.Perm.refl _
  | cons z zs ih => exact (insertZoneDesc_perm z _).trans (ih.cons z)

theorem insertZoneDesc_sorted (z : AreaChartColorZone) (l : List AreaChartColorZone)
    (hl : l.Pairwise (fun a b => ENum.ble b.«from» a.«from» = true)) :
    (ColorUtils.insertZoneDesc z l).Pairwise
      (fun a b => ENum.ble b.«from» a.«from» = true) := by
  induction l with
  | nil => simp [ColorUtils.insertZoneDesc]
  | cons y ys ih =>
      rcases List.pairwise_cons.mp hl with ⟨hy, hys⟩
      simp only [ColorUtils.insertZoneDesc]
      by_cases h : ENum.ble y.«from» z.«from» = true
      · simp only [h, if_true]
        refine List.Pairwise.cons ?_ hl
        intro b hb
        rcases List.mem_cons.mp hb with rfl | hb
        · exact h
        · exact ENum.ble_trans (hy b hb) h
      · simp only [h, if_false, Bool.false_eq_true]
        have hz : ENum.ble z.«from» y.«from» = true :=
          (ENum.ble_total y.«from» z.«from»).resolve_left h
        refine List.Pairwise.cons ?_ (ih hys)
        intro b hb
        have hb2 : b ∈ z :: ys := (insertZoneDesc_perm z ys).subset hb
        rcases List.mem_cons.mp hb2 with rfl | hb2
        · exact hz
        · exact hy b hb2

theorem sortZones_sorted (l : List AreaChartColorZone) :
    (ColorUtils.sortZones l).Pairwise
      (fun a b => ENum.ble b.«from» a.«from» = true) := by
  induction l with
  | nil => simp [ColorUtils.sortZones]
  | cons z zs ih => exact insertZoneDesc_sorted z _ ih

theorem gradient_foldl_eq_flatMap (chartArea : ChartArea) (scale : Scale) (fo : ℚ)
    (l : List AreaChartColorZone) :
    ∀ acc : List (ℚ × String),
      l.foldl
        (fun gradient zone =>
          let start := ColorUtils.normalizePosition zone.«from» scale chartArea
          let stop := ColorUtils.normalizePosition zone.«to» scale chartArea
          if start = stop then gradient
          else
            let c := ColorUtils.color zone.color (zone.opacity.getD fo)
            gradient ++ [(start, c), (stop, c)])
        acc =
      acc ++ l.flatMap (ColorUtils.zoneStops chartArea scale fo) := by
  induction l with
  | nil => intro acc; simp
  | cons z zs ih =>
      intro acc
      simp only [List.foldl_cons, List.flatMap_cons, ih]
      by_cases h : ColorUtils.normalizePosition z.«from» scale chartArea =
          ColorUtils.normalizePosition z.«to» scale chartArea
      · simp [ColorUtils.zoneStops, h]
      · simp [ColorUtils.zoneStops, h, List.append_assoc]

theorem createMultiBandGradient_eq_flatMap (chartArea : ChartArea) (scale : Scale)
    (zones : List AreaChartColorZone) (fo : ℚ) :
    ColorUtils.createMultiBandGradient chartArea scale zones fo =
      (ColorUtils.sortZones zones).flatMap (ColorUtils.zoneStops chartArea scale fo) := by
  simpa using gradient_foldl_eq_flatMap chartArea scale fo (ColorUtils.sortZones zones) []

theorem flatMap_zoneStops_length (chartArea : ChartArea) (scale : Scale) (fo : ℚ)
    (l : List AreaChartColorZone) :
    (l.flatMap (ColorUtils.zoneStops chartArea scale fo)).length =
      2 * l.countP (fun zone =>
        decide (ColorUtils.normalizePosition zone.«from» scale chartArea ≠
          ColorUtils.normalizePosition zone.«to» scale chartArea)) := by
  induction l with
  | nil => rfl
  | cons z zs ih =>
      simp only [List.flatMap_cons, List.length_append, List.countP_cons, ih]
      by_cases h : ColorUtils.normalizePosition z.«from» scale chartArea =
          ColorUtils.normalizePosition z.«to» scale chartArea
      · simp [ColorUtils.zoneStops, h]
      · simp only [ColorUtils.zoneStops, if_neg h, List.length_cons, List.length_singleton]
        simp [h]
        omega

/-- Claim C6: `createMultiBandGradient` processes the zones as a
permutation of the input sorted by descending `from`; each zone whose two
normalized positions coincide contributes no stops, and every other zone
contributes exactly the two stops at its normalized start and end
positions, both carrying `ColorUtils.color( zone.color, zone.opacity ?? fillOpacity )`;
consequently the gradient has exactly `2 * n` stops where `n` is the
number of non-degenerate zones. -/
theorem createMultiBandGradient_stop_count (chartArea : ChartArea) (scale : Scale)
    (zones : List AreaChartColorZone) (fo : ℚ) :
    ∃ zs : List AreaChartColorZone,
      List.Perm zs zones ∧
      zs.Pairwise (fun a b => ENum.ble b.«from» a.«from» = true) ∧
      ColorUtils.createMultiBandGradient chartArea scale zones fo =
        zs.flatMap (ColorUtils.zoneStops chartArea scale fo) ∧
      (∀ zone : AreaChartColorZone,
        ColorUtils.zoneStops chartArea scale fo zone =
          if ColorUtils.normalizePosition zone.«from» scale chartArea =
              ColorUtils.normalizePosition zone.«to» scale chartArea then []
          else
            [(ColorUtils.normalizePosition zone.«from» scale chartArea,
              ColorUtils.color zone.color (zone.opacity.getD fo)),
             (ColorUtils.normalizePosition zone.«to» scale chartArea,
              ColorUtils.color zone.color (zone.opacity.getD fo))]) ∧
      (ColorUtils.createMultiBandGradient chartArea scale zones fo).length =
        2 * zones.countP (fun zone =>
          decide (ColorUtils.normalizePosition zone.«from» scale chartArea ≠
            ColorUtils.normalizePosition zone.«to» scale chartArea)) := by
  refine ⟨ColorUtils.sortZones zones, sortZones_perm zones, sortZones_sorted zones,
    createMultiBandGradient_eq_flatMap chartArea scale zones fo,
    fun zone => rfl, ?_⟩
  rw [createMultiBandGradient_eq_flatMap, flatMap_zoneStops_length]
  exact congrArg (2 * ·) ((sortZones_perm zones).countP_eq _)

/-- Claim C8: the gradient construction never mutates the array the
caller passed: with the JavaScript array store made explicit, sorting
happens on the freshly allocated spread copy, so after the call the array
at the caller's reference holds exactly the elements it held before, in
the same order; and the emitted stops agree with the pure gradient of the
stored zone list. -/
theorem createMultiBandGradientStore_no_mutation
    (store : List (List AreaChartColorZone)) (zonesRef : Nat)
    (chartArea : ChartArea) (scale : Scale) (fo : ℚ) :
    ((ColorUtils.createMultiBandGradientStore store zonesRef chartArea scale fo).2).getD
        zonesRef [] = store.getD zonesRef [] ∧
    (ColorUtils.createMultiBandGradientStore store zonesRef chartArea scale fo).1 =
      ColorUtils.createMultiBandGradient chartArea scale (store.getD zonesRef []) fo := by
  constructor
  · simp only [ColorUtils.createMultiBandGradientStore]
    rcases lt_trichotomy zonesRef store.length with h | h | h
    · rw [List.getD_eq_getElem?_getD, List.getElem?_set_ne (by omega),
        List.getElem?_append_left h, List.getD_eq_getElem?_getD]
    · subst h
      rw [List.getD_eq_getElem?_getD, List.getElem?_set_self
          (by simp [List.length_append]),
        List.getD_eq_getElem?_getD, List.getElem?_eq_none (le_refl _)]
      simp [ColorUtils.sortZones]
    · rw [List.getD_eq_getElem?_getD, List.getElem?_set_ne (by omega),
        List.getElem?_eq_none (by simp; omega),
        List.getD_eq_getElem?_getD, List.getElem?_eq_none (by omega)]
  · rfl

/-- Claim C5: `ColorUtils.color` is total and never raises.  A string
matched by none of the four regexes is returned unchanged (so the
function is idempotent on such strings), and a non-string input is
returned through its default string conversion, with no alpha applied in
either case. -/
theorem color_unrecognized_passthrough :
    (∀ (s : String) (a : ℚ),
        ColorUtils.recognized s = false → ColorUtils.color (JSColor.str s) a = s) ∧
    (∀ (s : String) (a b : ℚ),
        ColorUtils.recognized s = false →
        ColorUtils.color (JSColor.str (ColorUtils.color (JSColor.str s) a)) b =
          ColorUtils.color (JSColor.str s) a) ∧
    ColorUtils.color (JSColor.str "red") (1/2) = "red" ∧
    (∀ (conv : String) (a : ℚ), ColorUtils.color (JSColor.obj conv) a = conv) := by
  have key : ∀ (s : String) (a : ℚ),
      ColorUtils.recognized s = false → ColorUtils.color (JSColor.str s) a = s := by
    intro s a h
    simp only [ColorUtils.recognized, Bool.or_eq_false_iff] at h
    obtain ⟨⟨⟨h1, h2⟩, h3⟩, h4⟩ := h
    rw [Bool.eq_false_iff, Ne, Option.not_isSome_iff_eq_none] at h1 h2 h3 h4
    simp [ColorUtils.color, ColorUtils.parseColor, h1, h2, h3, h4]
  refine ⟨key, fun s a b h => ?_, key "red" (1/2) (by decide), fun conv a => rfl⟩
  rw [key s a h]
  exact key s b h

/-- Witness for claim C5: the named color string `"red"` is recognized by
no regex and passes through unchanged. -/
theorem color_unrecognized_passthrough_witness :
    ColorUtils.recognized "red" = false ∧
      ColorUtils.color (JSColor.str "red") (1/4) = "red" :=
  ⟨by decide, color_unrecognized_passthrough.1 "red" (1/4) (by decide)⟩

/-- Claim C4, evaluated: the three concrete claims about rgb and hex
inputs hold, but the universally stated alpha-precedence rule fails for
the hsl format: `parseColor` slices the match array at fixed positions
`1..3` (components) and `4` (alpha), while the hsl regex has five capture
groups (hue, unit, saturation, lightness, alpha), so for a matched hsla
string the embedded alpha is dropped entirely and the lightness lands in
the alpha slot: `color( "hsla(1, 2%, 3%, 0.9)", 0.2 )` evaluates to
`"hsla(1,,2,3)"` instead of an output carrying alpha `0.9`. -/
theorem color_alpha_precedence_hsl_slip :
    ColorUtils.color (JSColor.str "#ff0000") (1/2) = "rgba(255,0,0,0.5)" ∧
    ColorUtils.color (JSColor.str "rgb(10,20,30)") (1/4) = "rgba(10,20,30,0.25)" ∧
    ColorUtils.color (JSColor.str "rgba(1,2,3,0.9)") (1/5) = "rgba(1,2,3,0.9)" ∧
    ColorUtils.color (JSColor.str "hsla(1, 2%, 3%, 0.9)") (1/5) = "hsla(1,,2,3)" := by
  refine ⟨by decide, by decide, by decide, by decide⟩

/-- Claim C9: a matched alpha token is substituted verbatim, without
numeric conversion: the two alpha hex digits of an 8-digit hex input
appear unconverted in the rgba output, and a percentage alpha keeps its
percent sign. -/
theorem color_embedded_alpha_verbatim :
    ColorUtils.color (JSColor.str "#ff000080") 1 = "rgba(255,0,0,80)" ∧
    ColorUtils.color (JSColor.str "rgb(1 2 3 / 50%)") 1 = "rgba(1,2,3,50%)" := by
  refine ⟨by decide, by decide⟩

theorem ne_of_isDigit {c d : Char} (h : c.isDigit = true) (hd : d.isDigit = false) :
    c ≠ d := fun he => by subst he; rw [h] at hd; exact Bool.noConfusion hd

theorem isDigit_not_jsWs {c : Char} (h : c.isDigit = true) : ColorUtils.jsWs c = false := by
  simp only [ColorUtils.jsWs, Bool.or_eq_false_iff, decide_eq_false_iff_not]
  refine ⟨⟨⟨⟨⟨?_, ?_⟩, ?_⟩, ?_⟩, ?_⟩, ?_⟩ <;> exact ne_of_isDigit h (by decide)

theorem isDigit_toNat {c : Char} (h : c.isDigit = true) :
    48 ≤ c.toNat ∧ c.toNat ≤ 57 := by
  simp only [Char.isDigit, Bool.and_eq_true, decide_eq_true_eq] at h
  exact ⟨h.1, h.2⟩

theorem isDigit_toLower {c : Char} (h : c.isDigit = true) : c.toLower = c := by
  obtain ⟨h1, h2⟩ := isDigit_toNat h
  simp only [Char.toLower]
  rw [if_neg]
  omega

theorem skipWs_digit {a : Char} (h : a.isDigit = true) (t : List Char) :
    ColorUtils.skipWs (a :: t) = a :: t := by
  simp [ColorUtils.skipWs, List.dropWhile_cons, isDigit_not_jsWs h]

theorem jsTrim_eq_self {cs : List Char} (h : ∀ c ∈ cs, ColorUtils.jsWs c = false) :
    ColorUtils.jsTrim cs = cs := by
  have drop_eq : ∀ l : List Char, (∀ c ∈ l, ColorUtils.jsWs c = false) →
      l.dropWhile ColorUtils.jsWs = l := by
    intro l hl
    cases l with
    | nil => rfl
    | cons a t => simp [List.dropWhile_cons, hl a (List.mem_cons_self a t)]
  unfold ColorUtils.jsTrim
  rw [drop_eq cs h, drop_eq cs.reverse (fun c hc => h c (List.mem_reverse.mp hc)),
    List.reverse_reverse]

theorem takeDigitsUpTo_succ_digit {n : Nat} {c : Char} (h : c.isDigit = true)
    (cs : List Char) :
    ColorUtils.takeDigitsUpTo (n + 1) (c :: cs) =
      (c :: (ColorUtils.takeDigitsUpTo n cs).1, (ColorUtils.takeDigitsUpTo n cs).2) := by
  simp [ColorUtils.takeDigitsUpTo, h]

theorem takeDigitsUpTo_succ_nondigit {n : Nat} {c : Char} (h : c.isDigit = false)
    (cs : List Char) :
    ColorUtils.takeDigitsUpTo (n + 1) (c :: cs) = ([], c :: cs) := by
  simp [ColorUtils.takeDigitsUpTo, h]

theorem takeDigitsUpTo3_append {ds : List Char} (hne : ds ≠ []) (hlen : ds.length ≤ 3)
    (hd : ∀ c ∈ ds, c.isDigit = true) {r0 : Char} (h0 : r0.isDigit = false)
    (rt : List Char) :
    ColorUtils.takeDigitsUpTo 3 (ds ++ r0 :: rt) = (ds, r0 :: rt) := by
  cases ds with
  | nil => exact absurd rfl hne
  | cons a t =>
      cases t with
      | nil =>
          rw [show (3 : Nat) = 2 + 1 from rfl,
            List.cons_append, List.nil_append,
            takeDigitsUpTo_succ_digit (hd a (by simp)),
            takeDigitsUpTo_succ_nondigit h0]
      | cons b t2 =>
          cases t2 with
          | nil =>
              rw [show (3 : Nat) = 2 + 1 from rfl, List.cons_append, List.cons_append,
                List.nil_append,
                takeDigitsUpTo_succ_digit (hd a (by simp)),
                show (2 : Nat) = 1 + 1 from rfl,
                takeDigitsUpTo_succ_digit (hd b (by simp)),
                takeDigitsUpTo_succ_nondigit h0]
          | cons c t3 =>
              cases t3 with
              | nil =>
                  rw [show (3 : Nat) = 2 + 1 from rfl, List.cons_append, List.cons_append,
                    List.cons_append, List.nil_append,
                    takeDigitsUpTo_succ_digit (hd a (by simp)),
                    show (2 : Nat) = 1 + 1 from rfl,
                    takeDigitsUpTo_succ_digit (hd b (by simp)),
                    show (1 : Nat) = 0 + 1 from rfl,
                    takeDigitsUpTo_succ_digit (hd c (by simp))]
                  rfl
              | cons d t4 => simp at hlen

theorem parseNum3_append {a : Char} {t : List Char} (hlen : (a :: t).length ≤ 3)
    (hd : ∀ c ∈ a :: t, c.isDigit = true) {r0 : Char} (h0 : r0.isDigit = false)
    (hdot : r0 ≠ '.') (rt : List Char) :
    ColorUtils.parseNum3 ((a :: t) ++ r0 :: rt) = some (a :: t, r0 :: rt) := by
  unfold ColorUtils.parseNum3
  rw [takeDigitsUpTo3_append (by simp) hlen hd h0 rt]
  split
  · next heq => simp at heq
  · next ds r heq =>
      injection heq with heq1 heq2
      subst heq1
      subst heq2
      split
      · next r2 heq2 =>
          rw [List.cons.injEq] at heq2
          exact absurd heq2.1 hdot
      · rfl

theorem parseSep_comma (rt : List Char) :
    ColorUtils.parseSep (',' :: rt) = some (ColorUtils.skipWs rt) := by
  have hc : ColorUtils.jsWs ',' = false := by decide
  simp [ColorUtils.parseSep, List.takeWhile_cons, List.dropWhile_cons, hc]

theorem parseNum3_cons {a : Char} {t : List Char} (hlen : (a :: t).length ≤ 3)
    (hd : ∀ c ∈ a :: t, c.isDigit = true) {r0 : Char} (h0 : r0.isDigit = false)
    (hdot : r0 ≠ '.') (rt : List Char) :
    ColorUtils.parseNum3 (a :: (t ++ r0 :: rt)) = some (a :: t, r0 :: rt) := by
  have h := @parseNum3_append a t hlen hd r0 h0 hdot rt
  rwa [List.cons_append] at h

theorem matchRGB_components (c1 c2 c3 : List Char)
    (h1 : rgbDigits c1) (h2 : rgbDigits c2) (h3 : rgbDigits c3) :
    ColorUtils.matchRGB ('r' :: 'g' :: 'b' :: '(' ::
        (c1 ++ ',' :: (c2 ++ ',' :: (c3 ++ [')'])))) =
      some [some c1, some c2, some c3, none] := by
  obtain ⟨hne1, hlen1, hd1⟩ := h1
  obtain ⟨hne2, hlen2, hd2⟩ := h2
  obtain ⟨hne3, hlen3, hd3⟩ := h3
  obtain ⟨a1, t1, rfl⟩ := List.exists_cons_of_ne_nil hne1
  obtain ⟨a2, t2, rfl⟩ := List.exists_cons_of_ne_nil hne2
  obtain ⟨a3, t3, rfl⟩ := List.exists_cons_of_ne_nil hne3
  have hcomma : (',').isDigit = false := by decide
  have hclose : (')').isDigit = false := by decide
  have hpt : ColorUtils.parseTail [')'] = some none := by decide
  unfold ColorUtils.matchRGB
  simp only [ColorUtils.expectCI, List.cons_append, List.append_nil]
  simp [skipWs_digit (hd1 a1 (by simp)), skipWs_digit (hd2 a2 (by simp)),
    skipWs_digit (hd3 a3 (by simp)),
    parseNum3_cons hlen1 hd1 hcomma (by decide),
    parseNum3_cons hlen2 hd2 hcomma (by decide),
    parseNum3_cons hlen3 hd3 hclose (by decide),
    parseSep_comma, hpt]

theorem color_rgb_general (c1 c2 c3 : List Char) (a : ℚ)
    (h1 : rgbDigits c1) (h2 : rgbDigits c2) (h3 : rgbDigits c3) :
    ColorUtils.color (JSColor.str (String.mk ('r' :: 'g' :: 'b' :: '(' ::
        (c1 ++ ',' :: (c2 ++ ',' :: (c3 ++ [')'])))))) a =
      String.mk ('r' :: 'g' :: 'b' :: 'a' :: '(' ::
        (c1 ++ ',' :: (c2 ++ ',' :: (c3 ++ ',' ::
          ((ColorUtils.jsNumRepr a).data ++ [')']))))) := by
  have hws : ∀ c ∈ ('r' :: 'g' :: 'b' :: '(' ::
      (c1 ++ ',' :: (c2 ++ ',' :: (c3 ++ [')'])))), ColorUtils.jsWs c = false := by
    intro c hc
    simp only [List.mem_cons, List.mem_append] at hc
    rcases hc with rfl | rfl | rfl | rfl | hc
    · decide
    · decide
    · decide
    · decide
    rcases hc with hc | hc
    · exact isDigit_not_jsWs (h1.2.2 c hc)
    rcases hc with rfl | hc
    · decide
    rcases hc with hc | hc
    · exact isDigit_not_jsWs (h2.2.2 c hc)
    rcases hc with rfl | hc
    · decide
    rcases hc with hc | hc
    · exact isDigit_not_jsWs (h3.2.2 c hc)
    rcases hc with rfl | hc
    · decide
    · simp at hc
  have hmatch := matchRGB_components c1 c2 c3 h1 h2 h3
  have hint : String.intercalate "," [c1.asString, c2.asString, c3.asString] =
      c1.asString ++ "," ++ c2.asString ++ "," ++ c3.asString := rfl
  have hdata : ∀ l : List Char, (l.asString).data = l := fun l => rfl
  apply String.ext
  simp only [ColorUtils.color, ColorUtils.parseColor, jsTrim_eq_self hws, hmatch]
  simp [hint, hdata, String.data_append, List.append_assoc]

/-- Claim C10: `ColorUtils.color` performs no range validation of matched
components.  Any three 1-3 digit rgb components are accepted and copied
verbatim into the rgba output, out of gamut or not; concretely,
`rgb(300,400,500)` becomes `rgba(300,400,500,0.5)` and fractional
out-of-gamut components pass through likewise; an out-of-gamut hsl input
is also accepted (not clamped, rejected, or passed through unchanged),
its digits appearing verbatim in the output. -/
theorem color_no_range_validation :
    (∀ (c1 c2 c3 : List Char) (a : ℚ),
        rgbDigits c1 → rgbDigits c2 → rgbDigits c3 →
        ColorUtils.color (JSColor.str (String.mk ('r' :: 'g' :: 'b' :: '(' ::
            (c1 ++ ',' :: (c2 ++ ',' :: (c3 ++ [')'])))))) a =
          String.mk ('r' :: 'g' :: 'b' :: 'a' :: '(' ::
            (c1 ++ ',' :: (c2 ++ ',' :: (c3 ++ ',' ::
              ((ColorUtils.jsNumRepr a).data ++ [')'])))))) ∧
    ColorUtils.color (JSColor.str "rgb(300,400,500)") (1/2) = "rgba(300,400,500,0.5)" ∧
    ColorUtils.color (JSColor.str "rgb(300.5,400.25,500)") (1/2) =
      "rgba(300.5,400.25,500,0.5)" ∧
    ColorUtils.color (JSColor.str "hsl(900, 200%, 300%)") (1/2) = "hsla(900,,200,300)" := by
  refine ⟨fun c1 c2 c3 a h1 h2 h3 => color_rgb_general c1 c2 c3 a h1 h2 h3,
    by decide, by decide, by decide⟩

/-- Witness for claim C10 at the concrete out-of-gamut components
`300`, `400`, `500` with alpha `1/2`. -/
theorem color_no_range_validation_witness :
    rgbDigits ['3', '0', '0'] ∧ rgbDigits ['4', '0', '0'] ∧ rgbDigits ['5', '0', '0'] ∧
    ColorUtils.color (JSColor.str (String.mk ('r' :: 'g' :: 'b' :: '(' ::
        (['3', '0', '0'] ++ ',' :: (['4', '0', '0'] ++ ',' ::
          (['5', '0', '0'] ++ [')'])))))) (1/2) = "rgba(300,400,500,0.5)" := by
  refine ⟨⟨by decide, by decide, by decide⟩, ⟨by decide, by decide, by decide⟩,
    ⟨by decide, by decide, by decide⟩, ?_⟩
  have h := color_no_range_validation.1 ['3', '0', '0'] ['4', '0', '0'] ['5', '0', '0']
    (1/2) ⟨by decide, by decide, by decide⟩ ⟨by decide, by decide, by decide⟩
    ⟨by decide, by decide, by decide⟩
  exact h.trans (by decide)
